import Mathlib

/-!
Shallow embedding of the wisdomai-backend context-retrieval and memory
pipeline, together with proofs that settle the frozen claims about it.

Conventions used throughout:
* JavaScript numbers are modelled by `JSNum`: an exact real value, `nan`,
  or a signed infinity.  Machine rounding is not modelled; all arithmetic
  identities proved here hold over exact real arithmetic.
* Strings handled character-wise by the code (the title generator) are
  modelled as `List Char`; other strings stay `String`.
* External calls (OpenAI completions and embeddings, database rejections)
  are modelled as explicit outcome parameters of the embedded functions:
  the function receives the value the external call would have produced,
  or the information that the call failed.
-/

/-- Model of a JavaScript number: a real value, NaN, or a signed infinity. -/
inductive JSNum where
  | num (x : ℝ)
  | nan
  | posInf
  | negInf

/-- JavaScript addition on `JSNum` (IEEE-754 rules, exact reals for finite values). -/
noncomputable def jsAdd : JSNum → JSNum → JSNum
  | .nan, _ => .nan
  | _, .nan => .nan
  | .num x, .num y => .num (x + y)
  | .posInf, .negInf => .nan
  | .negInf, .posInf => .nan
  | .posInf, _ => .posInf
  | _, .posInf => .posInf
  | .negInf, _ => .negInf
  | _, .negInf => .negInf

/-- JavaScript multiplication on `JSNum` (IEEE-754 rules, exact reals for
finite values; zero times an infinity is NaN). -/
noncomputable def jsMul : JSNum → JSNum → JSNum
  | .nan, _ => .nan
  | _, .nan => .nan
  | .num x, .num y => .num (x * y)
  | .posInf, .posInf => .posInf
  | .posInf, .negInf => .negInf
  | .negInf, .posInf => .negInf
  | .negInf, .negInf => .posInf
  | .posInf, .num x => if x = 0 then .nan else if 0 < x then .posInf else .negInf
  | .num x, .posInf => if x = 0 then .nan else if 0 < x then .posInf else .negInf
  | .negInf, .num x => if x = 0 then .nan else if 0 < x then .negInf else .posInf
  | .num x, .negInf => if x = 0 then .nan else if 0 < x then .negInf else .posInf

/-- JavaScript division on `JSNum`.  Division of a nonzero finite value by
zero gives a signed infinity, `0 / 0` gives NaN (the sign of JavaScript
negative zero is not modelled: the zero produced by the program is `+0`). -/
noncomputable def jsDiv : JSNum → JSNum → JSNum
  | .nan, _ => .nan
  | _, .nan => .nan
  | .num x, .num y =>
      if y = 0 then (if x = 0 then .nan else if 0 < x then .posInf else .negInf)
      else .num (x / y)
  | .num _, .posInf => .num 0
  | .num _, .negInf => .num 0
  | .posInf, .num y => if 0 ≤ y then .posInf else .negInf
  | .negInf, .num y => if 0 ≤ y then .negInf else .posInf
  | .posInf, .posInf => .nan
  | .posInf, .negInf => .nan
  | .negInf, .posInf => .nan
  | .negInf, .negInf => .nan

/-- JavaScript subtraction on `JSNum` (used by the sort comparator
in findRelevantFiles). -/
noncomputable def jsSub : JSNum → JSNum → JSNum
  | .nan, _ => .nan
  | _, .nan => .nan
  | .num x, .num y => .num (x - y)
  | .posInf, .posInf => .nan
  | .negInf, .negInf => .nan
  | .posInf, _ => .posInf
  | _, .negInf => .posInf
  | .negInf, _ => .negInf
  | _, .posInf => .negInf

/-- Math.sqrt: NaN on negative input, the real square root otherwise. -/
noncomputable def jsSqrt (x : ℝ) : JSNum :=
  if x < 0 then .nan else .num (Real.sqrt x)

/-- From src/utils.js cosineSimilarity, first line:
vecA.reduce((sum, val, i) =&gt; sum + val * vecB[i], 0).
The accumulator walks vecA by index; once vecB is exhausted, vecB[i] is
undefined and val * undefined is NaN, which then poisons the whole sum. -/
noncomputable def dotAux : JSNum → List ℝ → List ℝ → JSNum
  | sum, [], _ => sum
  | sum, _ :: as, [] => dotAux (jsAdd sum .nan) as []
  | sum, a :: as, b :: bs => dotAux (jsAdd sum (.num (a * b))) as bs

/-- The dot product as computed by src/utils.js cosineSimilarity. -/
noncomputable def dotProduct (vecA vecB : List ℝ) : JSNum :=
  dotAux (.num 0) vecA vecB

/-- From src/utils.js cosineSimilarity: vec.reduce((sum, val) =&gt; sum + val * val, 0),
the radicand of each magnitude. -/
def sumSq (v : List ℝ) : ℝ :=
  v.foldl (fun s x => s + x * x) 0

/-- src/utils.js cosineSimilarity: dotProduct / (magnitudeA * magnitudeB)
with magnitudes Math.sqrt of the sums of squares.  The function performs no
length check and cannot throw: mismatched lengths flow through undefined
element accesses into NaN arithmetic. -/
noncomputable def cosineSimilarity (vecA vecB : List ℝ) : JSNum :=
  jsDiv (dotProduct vecA vecB) (jsMul (jsSqrt (sumSq vecA)) (jsSqrt (sumSq vecB)))

/-! ### Knowledge store: findRelevantFiles (src/index.js) -/

/-- An entry of knowledgeEmbeddings.json: file name, raw content, and the
precomputed embedding vector. -/
structure KnowledgeItem where
  fileName : String
  content : String
  embedding : List ℝ

/-- The record built by the map step of findRelevantFiles:
the spread of a KnowledgeItem plus its similarity to the query. -/
structure ScoredItem extends KnowledgeItem where
  similarity : JSNum

/-- Sort-order test derived from the comparator
(a, b) =&gt; b.similarity - a.similarity of src/index.js findRelevantFiles:
true exactly when the comparator value is negative, i.e. a sorts strictly
before b.  Per the ECMAScript SortCompare rules a NaN comparator result is
treated as zero, so it yields false here. -/
noncomputable def scoredLt (a b : ScoredItem) : Prop :=
  match jsSub b.similarity a.similarity with
  | .num x => x < 0
  | .negInf => True
  | _ => False

noncomputable instance : DecidableRel scoredLt := fun a b => by
  unfold scoredLt
  exact match jsSub b.similarity a.similarity with
  | .num x => inferInstanceAs (Decidable (x < 0))
  | .negInf => inferInstanceAs (Decidable True)
  | .nan => inferInstanceAs (Decidable False)
  | .posInf => inferInstanceAs (Decidable False)

/-- Stable insertion of an element into an already sorted list: the new
element is placed before the first entry that does not sort strictly before
it.  Since the element being inserted precedes the list elements in the
original array, this keeps ties in original order. -/
noncomputable def orderedInsertJS (lt : α → α → Prop) [DecidableRel lt] (a : α) :
    List α → List α
  | [] => [a]
  | b :: l => if lt b a then b :: orderedInsertJS lt a l else a :: b :: l

/-- Array.prototype.sort with a comparator, modelled as a stable insertion
sort.  ECMAScript (ES2019 and later) requires sort to be stable, and for a
consistent comparator the stable sorted result is unique, so any compliant
implementation agrees with this model on consistent comparators. -/
noncomputable def sortJS (lt : α → α → Prop) [DecidableRel lt] : List α → List α
  | [] => []
  | a :: l => orderedInsertJS lt a (sortJS lt l)

/-- The map step of src/index.js findRelevantFiles: annotate every
knowledge item with its cosine similarity to the query embedding. -/
noncomputable def scoredItems (queryEmbedding : List ℝ) (knowledgeEmbeddings : List KnowledgeItem) :
    List ScoredItem :=
  knowledgeEmbeddings.map (fun item =>
    { toKnowledgeItem := item
      similarity := cosineSimilarity queryEmbedding item.embedding })

/-- src/index.js findRelevantFiles: embed the query (the embedding arrives
here as a parameter since the embedding service is an external call), score
every knowledge item, sort descending by similarity, return the first 3. -/
noncomputable def findRelevantFiles (queryEmbedding : List ℝ)
    (knowledgeEmbeddings : List KnowledgeItem) : List ScoredItem :=
  (sortJS scoredLt (scoredItems queryEmbedding knowledgeEmbeddings)).take 3

/-! ### Memory maintainer: src/utils/memory.js (updateUserMemory and friends)

Users are identified by naturals, timestamps by naturals (the argument
now stands for new Date()).  The persistent state visible to this module
is the UserMemory collection and the ChatHistory collection; for the
latter only the per-user document count matters here, so chat sessions
are modelled by their owner ids. -/

/-- An entry of personalFacts: { content, source, timestamp }
(memoryItemSchema of src/models/UserMemory.js). -/
structure MemFact where
  content : String
  source : String
  timestamp : Nat
deriving DecidableEq, Repr

/-- A UserMemory document (src/models/UserMemory.js): unique user id,
personalFacts, preferences (a Map, modelled as an insertion-ordered
association list), conversationSummary and lastUpdated. -/
structure MemoryRecord where
  userId : Nat
  personalFacts : List MemFact
  preferences : List (String × String)
  conversationSummary : String
  lastUpdated : Option Nat
deriving DecidableEq, Repr

/-- The database as seen by the memory maintainer: the UserMemory
collection and the owners of the ChatHistory documents. -/
structure MemDB where
  memories : List MemoryRecord
  chatOwners : List Nat
deriving DecidableEq, Repr

/-- UserMemory.findOne({ user: userId }): first matching document. -/
def findMemory (db : MemDB) (userId : Nat) : Option MemoryRecord :=
  db.memories.find? (fun m => m.userId = userId)

/-- memory.save(): replace the stored document with the same user id, or
insert the document if none is stored yet (Mongoose upsert-on-save for a
fetched-or-new document). -/
def saveMemory (db : MemDB) (m : MemoryRecord) : MemDB :=
  if db.memories.any (fun r => r.userId = m.userId) then
    { db with memories := db.memories.map (fun r => if r.userId = m.userId then m else r) }
  else
    { db with memories := db.memories ++ [m] }

/-- ChatHistory.countDocuments({ user: userId }). -/
def countChats (db : MemDB) (userId : Nat) : Nat :=
  (db.chatOwners.filter (fun u => u = userId)).length

/-- new UserMemory({ user: userId }): schema defaults give empty facts,
empty preferences, no summary. -/
def newMemoryRecord (userId : Nat) : MemoryRecord :=
  { userId := userId, personalFacts := [], preferences := [],
    conversationSummary := "", lastUpdated := none }

/-- src/utils/memory.js generateConversationSummary.  The function gathers
the 10 most recent chats into a transcript and submits it to the OpenAI
chat completion endpoint; that external call is modelled by its outcome
completionResult (some s: the call returned text s; none: the call threw).
The catch block returns the empty string on failure, and neither the
transcript nor the prompt affects the returned value, so the outcome
parameter fully determines the result. -/
def generateConversationSummary (completionResult : Option String) : String :=
  match completionResult with
  | some s => s
  | none => ""

/-- The parsed JSON payload of the fact-extraction response, keeping track
of which of the two optional keys were present with the expected types
(extraction.personalFacts an array, extraction.preferences an object). -/
structure Extraction where
  personalFacts : Option (List String)
  preferences : Option (List (String × String))
deriving DecidableEq, Repr

/-- Outcome of the external completion call plus JSON search and parse
inside extractFactsAndPreferences: the call threw (caught by the outer
catch), the payload had no parseable JSON object (early return), or a
parsed extraction. -/
inductive ExtractOutcome where
  | callFail
  | parseFail
  | parsed (e : Extraction)
deriving DecidableEq, Repr

/-- The fact-merge step of extractFactsAndPreferences: a Set of the
existing contents is built once, and each extracted fact is appended as an
observation exactly when its content is not already in that set (exact
string equality, no trimming). -/
def mergeFacts (existing : List MemFact) (newFacts : List String) (now : Nat) : List MemFact :=
  let existingContents := existing.map (fun f => f.content)
  existing ++ (newFacts.filter (fun f => ¬ existingContents.contains f)).map
    (fun f => { content := f, source := "observation", timestamp := now })

/-- Map.set on the preferences map: overwrite the value of an existing key
in place, else append the new binding. -/
def setPref (prefs : List (String × String)) (k v : String) : List (String × String) :=
  if prefs.any (fun p => p.1 = k) then
    prefs.map (fun p => if p.1 = k then (k, v) else p)
  else prefs ++ [(k, v)]

/-- The preference-merge step of extractFactsAndPreferences:
Object.entries(extraction.preferences).forEach((k, v) =&gt; prefsMap.set(k, v)). -/
def mergePrefs (prefs newPrefs : List (String × String)) : List (String × String) :=
  newPrefs.foldl (fun acc kv => setPref acc kv.1 kv.2) prefs

/-- src/utils/memory.js extractFactsAndPreferences.  The whole body runs in
one try/catch; outcome models the external call and JSON parsing.  After a
successful parse the function re-reads the UserMemory document: if none is
stored, the property accesses on null throw a TypeError that the outer
catch swallows, leaving the database unchanged.  Otherwise facts and
preferences are merged, lastUpdated refreshed, and the document saved. -/
def extractFactsAndPreferences (db : MemDB) (userId : Nat)
    (outcome : ExtractOutcome) (now : Nat) : MemDB :=
  match outcome with
  | .callFail => db
  | .parseFail => db
  | .parsed e =>
    match findMemory db userId with
    | none => db
    | some memory =>
      let memory := match e.personalFacts with
        | some fs => { memory with personalFacts := mergeFacts memory.personalFacts fs now }
        | none => memory
      let memory := match e.preferences with
        | some ps => { memory with preferences := mergePrefs memory.preferences ps }
        | none => memory
      saveMemory db { memory with lastUpdated := some now }

/-- Result of updateUserMemory: the database after the call, plus a trace
of which of the two conditional maintenance steps executed. -/
structure UpdateResult where
  db : MemDB
  ranSummary : Bool
  ranExtraction : Bool
deriving DecidableEq, Repr

/-- src/utils/memory.js updateUserMemory: find or create the memory
document, count the chat documents of the user, regenerate the summary
when chatCount % 5 === 0 (save included), and run fact extraction when
chatCount % 3 === 0.  The freshly created document is only ever persisted
by the summary branch; the external calls are modelled by their outcomes
summaryOutcome and extractOutcome. -/
def updateUserMemory (db : MemDB) (userId : Nat) (now : Nat)
    (summaryOutcome : Option String) (extractOutcome : ExtractOutcome) : UpdateResult :=
  let memory := (findMemory db userId).getD (newMemoryRecord userId)
  let chatCount := countChats db userId
  let step1 : MemDB × Bool :=
    if chatCount % 5 = 0 then
      let summary := generateConversationSummary summaryOutcome
      (saveMemory db { memory with conversationSummary := summary, lastUpdated := some now }, true)
    else (db, false)
  let step2 : MemDB × Bool :=
    if chatCount % 3 = 0 then
      (extractFactsAndPreferences step1.1 userId extractOutcome now, true)
    else (step1.1, false)
  { db := step2.1, ranSummary := step1.2, ranExtraction := step2.2 }

/-! ### Chat title generation: src/models/ChatHistory.js -/

/-- The character class of the JavaScript regex \w: ASCII letter, digit or
underscore. -/
def jsWordChar (c : Char) : Bool := c.isAlpha || c.isDigit || c = '_'

/-- The character class of the JavaScript regex \s, restricted to the ASCII
whitespace characters that can occur in this repository. -/
def jsSpaceChar (c : Char) : Bool := c = ' ' || c = '\t' || c = '\n' || c = '\r'

/-- content.replace (regex matching any char that is neither word nor
whitespace, global flag, replacement a single space). -/
def replaceNonWord (s : List Char) : List Char :=
  s.map (fun c => if jsWordChar c || jsSpaceChar c then c else ' ')

/-- .replace (regex matching a maximal whitespace run, global flag,
replacement a single space): the flag records whether the previous
character was part of a whitespace run. -/
def collapseSpaces : Bool → List Char → List Char
  | _, [] => []
  | inRun, c :: cs =>
    if jsSpaceChar c then
      if inRun then collapseSpaces true cs else ' ' :: collapseSpaces true cs
    else c :: collapseSpaces false cs

/-- String.prototype.trim: drop whitespace from both ends. -/
def trimChars (s : List Char) : List Char :=
  ((s.dropWhile (fun c => jsSpaceChar c)).reverse.dropWhile (fun c => jsSpaceChar c)).reverse

/-- String.prototype.split with separator a single space: splitting the
empty string yields one empty field, exactly as in JavaScript. -/
def splitOnSpace : List Char → List (List Char)
  | [] => [[]]
  | c :: cs =>
      if c = ' ' then [] :: splitOnSpace cs
      else
        match splitOnSpace cs with
        | w :: ws => (c :: w) :: ws
        | [] => [[c]]

/-- Array.prototype.join with a single-space separator. -/
def joinSpace : List (List Char) → List Char
  | [] => []
  | [w] => w
  | w :: ws => w ++ ' ' :: joinSpace ws

/-- src/models/ChatHistory.js generateTitle: clean the content (non-word
characters to spaces, whitespace runs collapsed, ends trimmed), take the
first 6 space-separated words, and append three dots exactly when the
cleaned content splits into more than 6 fields. -/
def generateTitle (content : List Char) : List Char :=
  let cleaned := trimChars (collapseSpaces false (replaceNonWord content))
  joinSpace ((splitOnSpace cleaned).take 6) ++
    (if 6 < (splitOnSpace cleaned).length then ['.', '.', '.'] else [])

/-- A message subdocument as far as the title hook reads it (role and
content; figure and timestamp are never consulted by the hook). -/
structure ChatMessage where
  role : String
  content : List Char
deriving DecidableEq, Repr

/-- A ChatHistory document as far as the title hook reads and writes it. -/
structure ChatSession where
  title : List Char
  messages : List ChatMessage
deriving DecidableEq, Repr

/-- The pre-save middleware of chatHistorySchema: when the document is new
or still titled New Chat, and a user-role message exists, the title is
regenerated from the first such message.  The Mongoose isNew flag arrives
as a parameter. -/
def preSaveTitleHook (isNew : Bool) (chat : ChatSession) : ChatSession :=
  if isNew || chat.title = "New Chat".toList then
    match chat.messages.find? (fun m => m.role = "user") with
    | some m => { chat with title := generateTitle m.content }
    | none => chat
  else chat

/-- Spec-side definition, following the claim wording only: the
whitespace-separated words of a character sequence, i.e. its maximal
nonempty runs of non-whitespace characters, in order.  The accumulator
holds the current run reversed. -/
def wsWordsAux (cur : List Char) : List Char → List (List Char)
  | [] => if cur.isEmpty then [] else [cur.reverse]
  | c :: cs =>
      if jsSpaceChar c then
        if cur.isEmpty then wsWordsAux [] cs else cur.reverse :: wsWordsAux [] cs
      else wsWordsAux (c :: cur) cs

/-- Spec-side definition (claim wording): whitespace-separated words. -/
def wsWords (s : List Char) : List (List Char) := wsWordsAux [] s

/-! ### The stream route: router.get of src/routes/chat.js -/

/-- A chat message as sent to the completion endpoint. -/
structure ChatMsg where
  role : String
  content : String
deriving DecidableEq, Repr

/-- The value returned by getUserMemory as consumed by the stream route. -/
structure MemoryView where
  personalFacts : List MemFact
  preferences : List (String × String)
  relevantHistory : String
deriving DecidableEq, Repr

/-- The query parameters of a stream request after validation. -/
structure StreamRequest where
  userId : Nat
  message : String
  wisdomFigure : String
  chatId : Option Nat
deriving DecidableEq, Repr

/-- The persona instruction table of src/routes/chat.js.  The instruction
texts are abbreviated to their opening sentence; no claim depends on the
instruction wording, only on which persona keys exist and on the fallback. -/
def personaPrompts : List (String × String) :=
  [("Buddha", "You are Buddha."),
   ("Jesus", "You are Jesus."),
   ("Epictetus", "You are Epictetus, the Stoic philosopher."),
   ("Vonnegut", "You are Kurt Vonnegut."),
   ("Laozi", "You are Laozi."),
   ("Rumi", "You are Rumi."),
   ("Sagan", "You are Carl Sagan."),
   ("Twain", "You are Mark Twain."),
   ("Kooi", "You are David Kooi.")]

/-- personaPrompts lookup by wisdom figure tag. -/
def lookupPersona (fig : String) : Option String :=
  (personaPrompts.find? (fun p => p.1 = fig)).map (fun p => p.2)

/-- The system message assembled by the stream route: persona instruction
or generic fallback, then the facts, preferences, recent-context and
knowledge blocks (template indentation simplified to single newlines).
The route computes the preferences string from
Array.from of (memory.preferences.entries or empty): entries is the Map
method itself, which is not iterable and has length 0, so Array.from
always yields the empty array and the preferences string is always empty. -/
def buildSystemMessage (wisdomFigure : String) (memory : MemoryView) (context : String) :
    String :=
  let personalFactsStr := String.intercalate ". " (memory.personalFacts.map (fun f => f.content))
  let preferencesStr := ""
  ((lookupPersona wisdomFigure).getD "You are a wise assistant. Answer thoughtfully.") ++
    "\nAbout the user: " ++ personalFactsStr ++
    "\nUser preferences: " ++ preferencesStr ++
    "\nRecent conversation context: " ++ memory.relevantHistory ++
    "\nContext from knowledge base:\n" ++ context

/-- The response of one stream request: either an error response (the catch
block answers 500 with a fixed error body) or a completed stream, recording
the message list sent to the model and the accumulated reply. -/
inductive StreamResult where
  | errorResponse (status : Nat) (body : String)
  | streamed (messagesSent : List ChatMsg) (reply : String)
deriving DecidableEq, Repr

/-- The in-process state the stream route reads and writes across requests:
the module-level conversationHistory array shared by all requests, plus the
database state used by the memory maintainer. -/
structure ServerState where
  conversationHistory : List ChatMsg
  db : MemDB
deriving DecidableEq, Repr

/-- router.get of src/routes/chat.js, the stream handler, for an
authenticated request.  The awaited external calls are modelled by outcome
parameters: memoryOutcome for getUserMemory (a database read chain that can
reject), knowledgeOutcome for findRelevantFiles (it embeds the query via an
external call; on success the route only uses the content fields, so the
outcome carries the relevant contents), completionOutcome for the streamed
completion, and summaryOutcome with extractOutcome for the external calls
inside updateUserMemory.  Any rejection inside the try block jumps to the
catch block, which sends a 500 error response; by that point the user
message may already have been pushed onto the shared history.  The daily
query count update touches only the User collection and is elided. -/
def streamHandler (st : ServerState) (req : StreamRequest)
    (memoryOutcome : Except String MemoryView)
    (knowledgeOutcome : Except String (List String))
    (completionOutcome : Except String String)
    (now : Nat) (summaryOutcome : Option String) (extractOutcome : ExtractOutcome) :
    ServerState × StreamResult :=
  match memoryOutcome with
  | .error _ => (st, .errorResponse 500 "Error communicating with OpenAI API.")
  | .ok memory =>
    match knowledgeOutcome with
    | .error _ => (st, .errorResponse 500 "Error communicating with OpenAI API.")
    | .ok relevantContents =>
      let context := String.intercalate "\n" relevantContents
      let systemMessage := buildSystemMessage req.wisdomFigure memory context
      let hist := st.conversationHistory ++ [{ role := "user", content := req.message }]
      let messagesSent := { role := "system", content := systemMessage } :: hist
      match completionOutcome with
      | .error _ =>
          ({ st with conversationHistory := hist },
           .errorResponse 500 "Error communicating with OpenAI API.")
      | .ok fullReply =>
          let hist2 := hist ++ [{ role := "assistant", content := fullReply }]
          let dbAfter := (updateUserMemory st.db req.userId now summaryOutcome extractOutcome).db
          ({ conversationHistory := hist2, db := dbAfter }, .streamed messagesSent fullReply)

/-! ### Helper lemmas about the memory store -/

theorem findMemory_eq_some_userId {db : MemDB} {u : Nat} {m : MemoryRecord}
    (h : findMemory db u = some m) : m.userId = u := by
  have h2 := List.find?_some h
  simpa using h2

theorem find_map_replace (l : List MemoryRecord) (m : MemoryRecord)
    (h : l.any (fun r => r.userId = m.userId) = true) :
    (l.map (fun r => if r.userId = m.userId then m else r)).find?
      (fun r => decide (r.userId = m.userId)) = some m := by
  induction l with
  | nil => simp at h
  | cons r l ih =>
    by_cases hr : r.userId = m.userId
    · simp [List.find?, hr]
    · have h2 : l.any (fun r => r.userId = m.userId) = true := by
        simpa [List.any_cons, hr] using h
      simpa [List.find?, hr] using ih h2

theorem findMemory_saveMemory (db : MemDB) (m : MemoryRecord) :
    findMemory (saveMemory db m) m.userId = some m := by
  unfold findMemory saveMemory
  by_cases h : db.memories.any (fun r => r.userId = m.userId) = true
  · simpa [h] using find_map_replace db.memories m h
  · have hnone : db.memories.find? (fun r => decide (r.userId = m.userId)) = none := by
      rw [List.find?_eq_none]
      intro x hx hcontra
      simp only [List.any_eq_true] at h
      exact h ⟨x, hx, by simpa using hcontra⟩
    simp [h, List.find?_append, hnone, List.find?]

theorem findMemory_saveMemory_at (db : MemDB) (r : MemoryRecord) (u : Nat)
    (h : r.userId = u) : findMemory (saveMemory db r) u = some r :=
  h ▸ findMemory_saveMemory db r

theorem extract_preserves_summary (db : MemDB) (u : Nat) (eo : ExtractOutcome) (now : Nat)
    (m : MemoryRecord) (hfm : findMemory db u = some m) :
    (findMemory (extractFactsAndPreferences db u eo now) u).map
      (fun r => r.conversationSummary) = some m.conversationSummary := by
  have hmu : m.userId = u := findMemory_eq_some_userId hfm
  cases eo with
  | callFail => simp [extractFactsAndPreferences, hfm]
  | parseFail => simp [extractFactsAndPreferences, hfm]
  | parsed e =>
    obtain ⟨pf, pp⟩ := e
    cases pf <;> cases pp <;>
      · simp only [extractFactsAndPreferences, hfm]
        rw [hmu, findMemory_saveMemory_at db _ u rfl]
        rfl

/-- A populated memory record used in concrete instances below. -/
def sampleRecord (u : Nat) (summary : String) : MemoryRecord :=
  { userId := u, personalFacts := [], preferences := [],
    conversationSummary := summary, lastUpdated := some 0 }

/-- The empty database. -/
def emptyDB : MemDB := { memories := [], chatOwners := [] }

/-- C1 counterexample: a user with zero chat documents.  Both maintenance
steps run (0 % 5 = 0 and 0 % 3 = 0), contradicting the claim that for a
count of 0 neither runs and that triggering requires a positive multiple. -/
theorem updateUserMemory_triggers_at_count_zero :
    countChats emptyDB 1 = 0 ∧
    (updateUserMemory emptyDB 1 0 none ExtractOutcome.callFail).ranSummary = true ∧
    (updateUserMemory emptyDB 1 0 none ExtractOutcome.callFail).ranExtraction = true := by
  refine ⟨rfl, rfl, rfl⟩

/-- C1 (amended): in updateUserMemory, summary regeneration runs exactly
when the completed-conversation count is divisible by 5 — including a
count of 0 — and fact extraction exactly when the count is divisible by 3,
again including 0. -/
theorem updateUserMemory_trigger_mod (db : MemDB) (u now : Nat)
    (so : Option String) (eo : ExtractOutcome) :
    ((updateUserMemory db u now so eo).ranSummary = true ↔ countChats db u % 5 = 0) ∧
    ((updateUserMemory db u now so eo).ranExtraction = true ↔ countChats db u % 3 = 0) := by
  unfold updateUserMemory
  constructor
  · by_cases h : countChats db u % 5 = 0 <;> simp [h]
  · by_cases h : countChats db u % 3 = 0 <;>
      by_cases h5 : countChats db u % 5 = 0 <;> simp [h, h5]

/-- C2 counterexample: a user with a stored non-empty summary and a chat
count divisible by 5 (here 0); the external summary call fails (outcome
none).  The stored summary is replaced by the empty string, contradicting
the claim that the prior summary is left unchanged. -/
theorem updateUserMemory_failed_summary_overwrites :
    (findMemory { memories := [sampleRecord 1 "old summary"], chatOwners := [] } 1).map
      (fun m => m.conversationSummary) = some "old summary" ∧
    (findMemory (updateUserMemory { memories := [sampleRecord 1 "old summary"], chatOwners := [] }
        1 7 none ExtractOutcome.callFail).db 1).map
      (fun m => m.conversationSummary) = some "" := by
  refine ⟨rfl, rfl⟩

/-- C2 (amended): updateUserMemory never throws (the failure of the
external call is caught inside generateConversationSummary), but whenever
the summary step runs and the external call fails, the stored
conversationSummary becomes the empty string — any previously stored
summary text is overwritten, not preserved. -/
theorem updateUserMemory_failed_summary_empties (db : MemDB) (u now : Nat)
    (eo : ExtractOutcome) (h5 : countChats db u % 5 = 0) :
    (findMemory (updateUserMemory db u now none eo).db u).map
      (fun m => m.conversationSummary) = some "" := by
  have hmu : ((findMemory db u).getD (newMemoryRecord u)).userId = u := by
    cases hfm : findMemory db u with
    | none => rfl
    | some r => simpa using findMemory_eq_some_userId hfm
  set M : MemoryRecord := { (findMemory db u).getD (newMemoryRecord u) with
    conversationSummary := "", lastUpdated := some now } with hM
  have hMu : M.userId = u := hmu
  have hsave : findMemory (saveMemory db M) u = some M :=
    findMemory_saveMemory_at db M u hMu
  unfold updateUserMemory
  simp only [h5, if_true, generateConversationSummary]
  by_cases h3 : countChats db u % 3 = 0
  · simp only [h3, if_true]
    have h4 := extract_preserves_summary (saveMemory db M) u eo now M hsave
    rw [hM] at h4
    simpa using h4
  · simp only [h3, if_false]
    have h4 := hsave
    rw [hM] at h4
    rw [h4]
    rfl

/-- C2 witness: the amended theorem applied to a concrete store holding a
non-empty summary, with a parsed extraction outcome. -/
theorem updateUserMemory_failed_summary_empties_witness :
    countChats { memories := [sampleRecord 2 "keep me"], chatOwners := [2, 2, 2, 2, 2] } 2 % 5 = 0 ∧
    (findMemory (updateUserMemory
        { memories := [sampleRecord 2 "keep me"], chatOwners := [2, 2, 2, 2, 2] } 2 9 none
        (ExtractOutcome.parsed { personalFacts := some ["x"], preferences := none })).db 2).map
      (fun m => m.conversationSummary) = some "" :=
  ⟨by decide, updateUserMemory_failed_summary_empties _ 2 9
    (ExtractOutcome.parsed { personalFacts := some ["x"], preferences := none }) (by decide)⟩

/-- C9: for a user with no stored MemoryRecord whose chat count is
divisible by 3 but not by 5, updateUserMemory persists nothing: the fresh
in-memory record is never saved, extractFactsAndPreferences re-reads a
missing record (the resulting TypeError is swallowed by its catch), and
the database is returned unchanged, with no error to the caller. -/
theorem updateUserMemory_unsaved_record_noop (db : MemDB) (u now : Nat)
    (so : Option String) (eo : ExtractOutcome)
    (hnone : findMemory db u = none)
    (h3 : countChats db u % 3 = 0) (h5 : ¬ countChats db u % 5 = 0) :
    (updateUserMemory db u now so eo).db = db := by
  unfold updateUserMemory
  simp only [h3, h5, if_true, if_false]
  cases eo with
  | callFail => rfl
  | parseFail => rfl
  | parsed e => simp [extractFactsAndPreferences, hnone]

/-- C9 witness: empty memory store, three chats, a parsed extraction with
one fact — the database is unchanged. -/
theorem updateUserMemory_unsaved_record_noop_witness :
    findMemory { memories := [], chatOwners := [1, 1, 1] } 1 = none ∧
    countChats { memories := [], chatOwners := [1, 1, 1] } 1 % 3 = 0 ∧
    ¬ countChats { memories := [], chatOwners := [1, 1, 1] } 1 % 5 = 0 ∧
    (updateUserMemory { memories := [], chatOwners := [1, 1, 1] } 1 4 (some "s")
      (ExtractOutcome.parsed { personalFacts := some ["likes tea"], preferences := some [("drink", "tea")] })).db =
      { memories := [], chatOwners := [1, 1, 1] } :=
  ⟨by decide, by decide, by decide,
    updateUserMemory_unsaved_record_noop _ 1 4 (some "s")
      (ExtractOutcome.parsed { personalFacts := some ["likes tea"], preferences := some [("drink", "tea")] })
      (by decide) (by decide) (by decide)⟩

/-- C4 counterexample: the stored fact has content without leading space,
the extracted fact is the same text with a leading space.  The two are
identical after trimming, yet mergeFacts appends a new entry (the Set test
uses exact equality, with no trimming), so the fact count grows to 2. -/
theorem mergeFacts_no_trim_duplicate :
    trimChars (" likes tea").toList = ("likes tea").toList ∧
    (mergeFacts [{ content := "likes tea", source := "observation", timestamp := 0 }]
      [" likes tea"] 1).length = 2 := by
  refine ⟨by decide, by decide⟩

/-- C4 (amended): mergeFacts deduplicates by exact string equality of the
content, not by trimmed content: appending a fact whose content exactly
equals an existing content leaves the list unchanged, and appending a fact
whose content exactly matches no existing content grows the list by one. -/
theorem mergeFacts_exact_match_dedup (existing : List MemFact) (f : String) (now : Nat) :
    (f ∈ existing.map (fun x => x.content) → mergeFacts existing [f] now = existing) ∧
    (f ∉ existing.map (fun x => x.content) →
      (mergeFacts existing [f] now).length = existing.length + 1) := by
  constructor
  · intro h
    obtain ⟨x, hx, hxf⟩ := List.mem_map.mp h
    simp only [mergeFacts]
    rw [List.filter_cons]
    have hdup : ¬ ∀ y ∈ existing, ¬ y.content = f := fun hall => hall x hx hxf
    simp [hdup]
  · intro h
    have hfree : ∀ x ∈ existing, ¬ x.content = f := by
      intro x hx hc
      exact h (List.mem_map.mpr ⟨x, hx, hc⟩)
    have hc : ((existing.map (fun x => x.content)).contains f) = false := by
      simpa using h
    simp [mergeFacts, List.filter_cons, hc]
    rw [if_pos hfree]
    rfl

/-- C4 witness: the amended theorem applied at a one-element fact list,
once with an exact duplicate and once with a fresh fact. -/
theorem mergeFacts_exact_match_dedup_witness :
    ("a" ∈ ([{ content := "a", source := "observation", timestamp := 0 }] : List MemFact).map
      (fun x => x.content)) ∧
    ("b" ∉ ([{ content := "a", source := "observation", timestamp := 0 }] : List MemFact).map
      (fun x => x.content)) ∧
    mergeFacts [{ content := "a", source := "observation", timestamp := 0 }] ["a"] 1 =
      [{ content := "a", source := "observation", timestamp := 0 }] ∧
    (mergeFacts [{ content := "a", source := "observation", timestamp := 0 }] ["b"] 1).length =
      ([{ content := "a", source := "observation", timestamp := 0 }] : List MemFact).length + 1 :=
  ⟨by decide, by decide,
    (mergeFacts_exact_match_dedup [{ content := "a", source := "observation", timestamp := 0 }] "a" 1).1 (by decide),
    (mergeFacts_exact_match_dedup [{ content := "a", source := "observation", timestamp := 0 }] "b" 1).2 (by decide)⟩

/-- The messages a StreamResult sent to the model (empty for an error
response); helper for concrete statements about the stream route. -/
def sentMessages : StreamResult → List ChatMsg
  | .streamed ms _ => ms
  | .errorResponse _ _ => []

/-- C3 counterexample: a concrete request whose getUserMemory call fails.
The handler answers with a 500 error response and the turn is aborted —
no empty-memory fallback happens, contradicting the claim that the
failure is absorbed locally and never surfaced as an error response. -/
theorem streamHandler_memory_error_500_concrete :
    streamHandler { conversationHistory := [], db := emptyDB }
      { userId := 1, message := "hi", wisdomFigure := "Buddha", chatId := none }
      (Except.error "db down") (Except.ok []) (Except.ok "reply") 0 none ExtractOutcome.callFail =
    ({ conversationHistory := [], db := emptyDB },
     StreamResult.errorResponse 500 "Error communicating with OpenAI API.") := by
  rfl

/-- C3 (amended): the stream route calls getUserMemory inside its only
try block; when that call fails, control reaches the catch handler, which
sends a 500 error response, and the turn is aborted.  No empty facts,
preferences or history are substituted. -/
theorem streamHandler_memory_error_500 (st : ServerState) (req : StreamRequest)
    (e : String) (ko : Except String (List String)) (co : Except String String)
    (now : Nat) (so : Option String) (eo : ExtractOutcome) :
    streamHandler st req (Except.error e) ko co now so eo =
      (st, StreamResult.errorResponse 500 "Error communicating with OpenAI API.") := by
  rfl

/-- C8 counterexample: two sequential requests by different users (ids 1
and 2).  The message list sent to the model for the second request
contains the first user's message, because both requests share the
module-level conversationHistory array. -/
theorem streamHandler_cross_user_leak :
    ({ role := "user", content := "user one secret" } : ChatMsg) ∈
      sentMessages (streamHandler
        (streamHandler { conversationHistory := [], db := emptyDB }
          { userId := 1, message := "user one secret", wisdomFigure := "Buddha", chatId := none }
          (Except.ok { personalFacts := [], preferences := [], relevantHistory := "" })
          (Except.ok []) (Except.ok "reply one") 0 none ExtractOutcome.callFail).1
        { userId := 2, message := "user two hello", wisdomFigure := "Buddha", chatId := none }
        (Except.ok { personalFacts := [], preferences := [], relevantHistory := "" })
        (Except.ok []) (Except.ok "reply two") 1 none ExtractOutcome.callFail).2 := by
  decide

/-- C8 (amended): the stream route keeps one module-level
conversationHistory array shared by every request.  On a successful turn
the message list sent to the model is the system message followed by the
entire shared array — whatever users produced it — plus the new user
message, and the shared array afterwards additionally holds the reply;
only the facts, preferences and relevantHistory inside the system message
are per-user.  One request therefore does depend on other users'
messages. -/
theorem streamHandler_uses_shared_history (st : ServerState) (req : StreamRequest)
    (memory : MemoryView) (contents : List String) (reply : String)
    (now : Nat) (so : Option String) (eo : ExtractOutcome) :
    streamHandler st req (Except.ok memory) (Except.ok contents) (Except.ok reply) now so eo =
      ({ conversationHistory := st.conversationHistory ++
            [{ role := "user", content := req.message },
             { role := "assistant", content := reply }],
          db := (updateUserMemory st.db req.userId now so eo).db },
       StreamResult.streamed
         ({ role := "system",
            content := buildSystemMessage req.wisdomFigure memory
              (String.intercalate "\n" contents) } ::
           (st.conversationHistory ++ [{ role := "user", content := req.message }]))
         reply) := by
  simp [streamHandler]

/-! ### Lemmas about cosineSimilarity -/

theorem jsAdd_nan_right (x : JSNum) : jsAdd x JSNum.nan = JSNum.nan := by
  cases x <;> rfl

theorem jsDiv_nan_left (y : JSNum) : jsDiv JSNum.nan y = JSNum.nan := by
  cases y <;> rfl

theorem jsMul_comm (x y : JSNum) : jsMul x y = jsMul y x := by
  cases x <;> cases y <;> simp [jsMul, mul_comm]

theorem sumSq_shift (v : List ℝ) : ∀ s : ℝ,
    v.foldl (fun a x => a + x * x) s = s + sumSq v := by
  induction v with
  | nil => intro s; simp [sumSq]
  | cons x v ih =>
    intro s
    simp only [sumSq, List.foldl_cons] at ih ⊢
    rw [ih (s + x * x), ih (0 + x * x)]
    ring

theorem sumSq_cons (x : ℝ) (v : List ℝ) : sumSq (x :: v) = x * x + sumSq v := by
  simp only [sumSq, List.foldl_cons]
  rw [sumSq_shift v (0 + x * x)]
  simp only [sumSq]
  ring

theorem sumSq_nonneg (v : List ℝ) : 0 ≤ sumSq v := by
  induction v with
  | nil => simp [sumSq]
  | cons x v ih =>
    rw [sumSq_cons]
    have := mul_self_nonneg x
    linarith

theorem sumSq_eq_zero_all_zero {v : List ℝ} (h : sumSq v = 0) :
    ∀ x ∈ v, x = 0 := by
  induction v with
  | nil => intro x hx; simp at hx
  | cons y v ih =>
    rw [sumSq_cons] at h
    have h1 : 0 ≤ y * y := mul_self_nonneg y
    have h2 : 0 ≤ sumSq v := sumSq_nonneg v
    have hy : y * y = 0 := by linarith
    have hv : sumSq v = 0 := by linarith
    intro x hx
    rcases List.mem_cons.mp hx with hx | hx
    · subst hx; exact mul_self_eq_zero.mp hy
    · exact ih hv x hx

theorem dotAux_self (v : List ℝ) : ∀ s : ℝ,
    dotAux (JSNum.num s) v v = JSNum.num (s + sumSq v) := by
  induction v with
  | nil => intro s; simp [dotAux, sumSq]
  | cons x v ih =>
    intro s
    simp only [dotAux, jsAdd]
    rw [ih (s + x * x), sumSq_cons]
    congr 1
    ring

theorem dotProduct_self (v : List ℝ) : dotProduct v v = JSNum.num (sumSq v) := by
  simp [dotProduct, dotAux_self v 0]

theorem dotAux_comm (a : List ℝ) : ∀ (b : List ℝ) (s : JSNum),
    a.length = b.length → dotAux s a b = dotAux s b a := by
  induction a with
  | nil =>
    intro b s h
    cases b with
    | nil => rfl
    | cons y bs => simp at h
  | cons x as ih =>
    intro b s h
    cases b with
    | nil => simp at h
    | cons y bs =>
      simp only [dotAux, mul_comm]
      exact ih bs _ (by simpa using h)

theorem dotAux_nan (a b : List ℝ) : dotAux JSNum.nan a b = JSNum.nan := by
  induction a generalizing b with
  | nil => rfl
  | cons x as ih =>
    cases b with
    | nil => simpa [dotAux] using ih []
    | cons y bs => simpa [dotAux, jsAdd] using ih bs

theorem dotAux_nan_of_shorter (a : List ℝ) : ∀ (b : List ℝ) (s : JSNum),
    b.length < a.length → dotAux s a b = JSNum.nan := by
  induction a with
  | nil => intro b s h; simp at h
  | cons x as ih =>
    intro b s h
    cases b with
    | nil =>
      simp only [dotAux, jsAdd_nan_right]
      exact dotAux_nan as []
    | cons y bs =>
      simp only [dotAux]
      exact ih bs _ (by simpa using h)

theorem dotAux_zero_left (a : List ℝ) : ∀ (b : List ℝ) (s : ℝ),
    (∀ x ∈ a, x = 0) → a.length ≤ b.length →
    dotAux (JSNum.num s) a b = JSNum.num s := by
  induction a with
  | nil => intro b s _ _; rfl
  | cons x as ih =>
    intro b s hz hlen
    cases b with
    | nil => simp at hlen
    | cons y bs =>
      have hx : x = 0 := hz x (List.mem_cons_self x as)
      simp only [dotAux, jsAdd, hx, zero_mul, add_zero]
      exact ih bs s (fun z hzz => hz z (List.mem_cons_of_mem x hzz)) (by simpa using hlen)

/-- C7: over exact real arithmetic, cosineSimilarity of a nonzero vector
with itself is exactly 1, and cosineSimilarity is symmetric for
equal-length vectors. -/
theorem cosineSimilarity_self_one_symm (a b : List ℝ) :
    (sumSq a ≠ 0 → cosineSimilarity a a = JSNum.num 1) ∧
    (a.length = b.length → cosineSimilarity a b = cosineSimilarity b a) := by
  constructor
  · intro h
    have hS := sumSq_nonneg a
    unfold cosineSimilarity
    rw [dotProduct_self]
    unfold jsSqrt
    rw [if_neg (not_lt.mpr hS)]
    simp only [jsMul]
    rw [Real.mul_self_sqrt hS]
    simp only [jsDiv]
    rw [if_neg h, div_self h]
  · intro h
    unfold cosineSimilarity dotProduct
    rw [dotAux_comm a b _ h, jsMul_comm]

/-- C7 witness: the theorem applied at the one-dimensional vectors with
entries 1 and 2. -/
theorem cosineSimilarity_self_one_symm_witness :
    sumSq [(1 : ℝ)] ≠ 0 ∧ List.length [(1 : ℝ)] = List.length [(2 : ℝ)] ∧
    cosineSimilarity [(1 : ℝ)] [(1 : ℝ)] = JSNum.num 1 ∧
    cosineSimilarity [(1 : ℝ)] [(2 : ℝ)] = cosineSimilarity [(2 : ℝ)] [(1 : ℝ)] := by
  have h : sumSq [(1 : ℝ)] ≠ 0 := by norm_num [sumSq]
  exact ⟨h, rfl, (cosineSimilarity_self_one_symm [(1 : ℝ)] [(2 : ℝ)]).1 h,
    (cosineSimilarity_self_one_symm [(1 : ℝ)] [(2 : ℝ)]).2 rfl⟩

/-- C6 counterexample: vectors of different lengths (1 and 2), yet
cosineSimilarity neither throws a length-mismatch error (it is a total
function with no failure outcome) nor even returns NaN here: when the
first vector is the shorter one, the computation silently uses a prefix of
the second vector and yields an ordinary number, here exactly 1. -/
theorem cosineSimilarity_mismatch_returns_number :
    List.length [(1 : ℝ)] ≠ List.length [(1 : ℝ), 0] ∧
    cosineSimilarity [(1 : ℝ)] [(1 : ℝ), 0] = JSNum.num 1 := by
  constructor
  · simp
  · have h1 : sumSq [(1 : ℝ)] = 1 := by norm_num [sumSq]
    have h2 : sumSq [(1 : ℝ), 0] = 1 := by norm_num [sumSq]
    have hd : dotProduct [(1 : ℝ)] [(1 : ℝ), 0] = JSNum.num 1 := by
      simp [dotProduct, dotAux, jsAdd]
    unfold cosineSimilarity
    rw [hd, h1, h2]
    unfold jsSqrt
    rw [if_neg (by norm_num : ¬ (1 : ℝ) < 0), Real.sqrt_one]
    simp [jsMul, jsDiv]

/-- C6 (amended): cosineSimilarity performs no length check and cannot
fail: when the first vector is strictly longer, the out-of-range accesses
poison the dot product and the result is NaN (when it is shorter, an
ordinary number computed over a prefix is returned, see the
counterexample); and for equal-length vectors where either has zero
magnitude, the result is NaN. -/
theorem cosineSimilarity_no_length_error_nan (a b : List ℝ) :
    (b.length < a.length → cosineSimilarity a b = JSNum.nan) ∧
    (a.length = b.length → sumSq a = 0 ∨ sumSq b = 0 →
      cosineSimilarity a b = JSNum.nan) := by
  constructor
  · intro h
    unfold cosineSimilarity dotProduct
    rw [dotAux_nan_of_shorter a b _ h]
    exact jsDiv_nan_left _
  · intro hlen hz
    have hdot : dotProduct a b = JSNum.num 0 := by
      cases hz with
      | inl hA =>
        have h3 := dotAux_zero_left a b 0 (sumSq_eq_zero_all_zero hA) (le_of_eq hlen)
        simpa [dotProduct] using h3
      | inr hB =>
        unfold dotProduct
        rw [dotAux_comm a b _ hlen]
        exact dotAux_zero_left b a 0 (sumSq_eq_zero_all_zero hB) (le_of_eq hlen.symm)
    unfold cosineSimilarity
    rw [hdot]
    have hA2 := sumSq_nonneg a
    have hB2 := sumSq_nonneg b
    unfold jsSqrt
    rw [if_neg (not_lt.mpr hA2), if_neg (not_lt.mpr hB2)]
    simp only [jsMul]
    have hden : Real.sqrt (sumSq a) * Real.sqrt (sumSq b) = 0 := by
      cases hz with
      | inl hA => rw [hA, Real.sqrt_zero, zero_mul]
      | inr hB => rw [hB, Real.sqrt_zero, mul_zero]
    rw [hden]
    simp [jsDiv]

/-- C6 witness: the amended theorem applied with a longer first vector and
with an equal-length zero-magnitude first vector. -/
theorem cosineSimilarity_no_length_error_nan_witness :
    List.length [(1 : ℝ)] < List.length [(1 : ℝ), 2] ∧
    cosineSimilarity [(1 : ℝ), 2] [(1 : ℝ)] = JSNum.nan ∧
    List.length [(0 : ℝ)] = List.length [(3 : ℝ)] ∧
    (sumSq [(0 : ℝ)] = 0 ∨ sumSq [(3 : ℝ)] = 0) ∧
    cosineSimilarity [(0 : ℝ)] [(3 : ℝ)] = JSNum.nan := by
  refine ⟨by simp, (cosineSimilarity_no_length_error_nan [(1 : ℝ), 2] [(1 : ℝ)]).1 (by simp),
    rfl, Or.inl (by norm_num [sumSq]),
    (cosineSimilarity_no_length_error_nan [(0 : ℝ)] [(3 : ℝ)]).2 rfl (Or.inl (by norm_num [sumSq]))⟩

/-! ### Lemmas about the stable sort used by findRelevantFiles -/

theorem orderedInsertJS_perm (lt : α → α → Prop) [DecidableRel lt] (a : α) (l : List α) :
    List.Perm (orderedInsertJS lt a l) (a :: l) := by
  induction l with
  | nil => simp [orderedInsertJS]
  | cons b l ih =>
    by_cases h : lt b a
    · simp only [orderedInsertJS, if_pos h]
      exact (ih.cons b).trans (List.Perm.swap a b l)
    · simp [orderedInsertJS, if_neg h]

theorem sortJS_perm (lt : α → α → Prop) [DecidableRel lt] (l : List α) :
    List.Perm (sortJS lt l) l := by
  induction l with
  | nil => rfl
  | cons a l ih => exact (orderedInsertJS_perm lt a (sortJS lt l)).trans (ih.cons a)

theorem orderedInsertJS_pairwise (lt : α → α → Prop) [DecidableRel lt]
    (key : α → ℝ) (good : α → Prop)
    (hkey : ∀ x y, good x → good y → (lt x y ↔ key y < key x))
    (a : α) (ha : good a) (l : List α) (hl : ∀ x ∈ l, good x)
    (hs : l.Pairwise (fun x y => key y ≤ key x)) :
    (orderedInsertJS lt a l).Pairwise (fun x y => key y ≤ key x) := by
  induction l with
  | nil => simp [orderedInsertJS]
  | cons b l ih =>
    have hb : good b := hl b (List.mem_cons_self b l)
    have hl2 : ∀ x ∈ l, good x := fun x hx => hl x (List.mem_cons_of_mem b hx)
    rcases List.pairwise_cons.mp hs with ⟨hbl, hsl⟩
    by_cases h : lt b a
    · simp only [orderedInsertJS, if_pos h]
      refine List.pairwise_cons.mpr ⟨?_, ih hl2 hsl⟩
      intro y hy
      rcases List.mem_cons.mp ((orderedInsertJS_perm lt a l).mem_iff.mp hy) with heq | hyl
      · rw [heq]
        exact le_of_lt ((hkey b a hb ha).mp h)
      · exact hbl y hyl
    · simp only [orderedInsertJS, if_neg h]
      have hba : key b ≤ key a :=
        le_of_not_lt (fun hlt => h ((hkey b a hb ha).mpr hlt))
      refine List.pairwise_cons.mpr ⟨?_, hs⟩
      intro y hy
      rcases List.mem_cons.mp hy with heq | hyl
      · rw [heq]
        exact hba
      · exact le_trans (hbl y hyl) hba

theorem sortJS_pairwise (lt : α → α → Prop) [DecidableRel lt]
    (key : α → ℝ) (good : α → Prop)
    (hkey : ∀ x y, good x → good y → (lt x y ↔ key y < key x))
    (l : List α) (hl : ∀ x ∈ l, good x) :
    (sortJS lt l).Pairwise (fun x y => key y ≤ key x) := by
  induction l with
  | nil => simp [sortJS]
  | cons a l ih =>
    have hl2 : ∀ x ∈ l, good x := fun x hx => hl x (List.mem_cons_of_mem a hx)
    exact orderedInsertJS_pairwise lt key good hkey a (hl a (List.mem_cons_self a l))
      (sortJS lt l) (fun x hx => hl2 x ((sortJS_perm lt l).mem_iff.mp hx)) (ih hl2)

theorem filter_orderedInsertJS_ne (lt : α → α → Prop) [DecidableRel lt]
    (key : α → ℝ) (v : ℝ) (a : α) (l : List α) (hav : key a ≠ v) :
    (orderedInsertJS lt a l).filter (fun x => decide (key x = v)) =
      l.filter (fun x => decide (key x = v)) := by
  induction l with
  | nil => simp [orderedInsertJS, hav]
  | cons b l ih =>
    by_cases h : lt b a
    · simp only [orderedInsertJS, if_pos h, List.filter_cons]
      rw [ih]
    · simp [orderedInsertJS, if_neg h, List.filter_cons, hav]

theorem filter_orderedInsertJS_eq (lt : α → α → Prop) [DecidableRel lt]
    (key : α → ℝ) (good : α → Prop)
    (hkey : ∀ x y, good x → good y → (lt x y ↔ key y < key x))
    (v : ℝ) (a : α) (ha : good a) (hav : key a = v) :
    ∀ (l : List α), (∀ x ∈ l, good x) →
    (orderedInsertJS lt a l).filter (fun x => decide (key x = v)) =
      a :: l.filter (fun x => decide (key x = v)) := by
  intro l
  induction l with
  | nil => intro _; simp [orderedInsertJS, hav]
  | cons b l ih =>
    intro hl
    have hb : good b := hl b (List.mem_cons_self b l)
    have hl2 : ∀ x ∈ l, good x := fun x hx => hl x (List.mem_cons_of_mem b hx)
    by_cases h : lt b a
    · have hkb : key b ≠ v := by
        have hlt : key a < key b := (hkey b a hb ha).mp h
        rw [← hav]
        exact ne_of_gt hlt
      simp only [orderedInsertJS, if_pos h, List.filter_cons]
      rw [ih hl2]
      simp [hkb]
    · simp [orderedInsertJS, if_neg h, List.filter_cons, hav]

theorem sortJS_filter (lt : α → α → Prop) [DecidableRel lt]
    (key : α → ℝ) (good : α → Prop)
    (hkey : ∀ x y, good x → good y → (lt x y ↔ key y < key x))
    (v : ℝ) (l : List α) (hl : ∀ x ∈ l, good x) :
    (sortJS lt l).filter (fun x => decide (key x = v)) =
      l.filter (fun x => decide (key x = v)) := by
  induction l with
  | nil => rfl
  | cons a l ih =>
    have ha : good a := hl a (List.mem_cons_self a l)
    have hl2 : ∀ x ∈ l, good x := fun x hx => hl x (List.mem_cons_of_mem a hx)
    have hsortmem : ∀ x ∈ sortJS lt l, good x :=
      fun x hx => hl2 x ((sortJS_perm lt l).mem_iff.mp hx)
    by_cases hav : key a = v
    · show (orderedInsertJS lt a (sortJS lt l)).filter _ = _
      rw [filter_orderedInsertJS_eq lt key good hkey v a ha hav (sortJS lt l) hsortmem,
        ih hl2, List.filter_cons]
      simp [hav]
    · show (orderedInsertJS lt a (sortJS lt l)).filter _ = _
      rw [filter_orderedInsertJS_ne lt key v a (sortJS lt l) hav, ih hl2, List.filter_cons]
      simp [hav]

/-- The real value of a numeric JSNum (defaults to 0 on the non-numeric
outcomes; used only under the hypothesis that the value is numeric). -/
def simValue : JSNum → ℝ
  | .num x => x
  | _ => 0

theorem scoredLt_iff (a b : ScoredItem)
    (ha : ∃ x, a.similarity = JSNum.num x) (hb : ∃ y, b.similarity = JSNum.num y) :
    scoredLt a b ↔ simValue b.similarity < simValue a.similarity := by
  obtain ⟨x, hx⟩ := ha
  obtain ⟨y, hy⟩ := hb
  unfold scoredLt
  rw [hx, hy]
  simp only [jsSub, simValue]
  exact sub_neg

/-- C5: on any corpus whose computed similarities are all numeric (no NaN,
so the comparator is consistent), findRelevantFiles returns a list sorted
by descending similarity; the sort is stable (for every similarity value,
the sorted list restricted to that value equals the scored corpus
restricted to it, i.e. ties keep original load order); when the corpus has
at most k = 3 items the result is a permutation of the entire scored
corpus (and sorted, by the first part); and the empty corpus yields the
empty list with no failure. -/
theorem findRelevantFiles_sorted_stable (qe : List ℝ) (ks : List KnowledgeItem)
    (hnum : ∀ s ∈ scoredItems qe ks, ∃ x, s.similarity = JSNum.num x) :
    (findRelevantFiles qe ks).Pairwise
      (fun a b => simValue b.similarity ≤ simValue a.similarity) ∧
    (∀ v : ℝ, (sortJS scoredLt (scoredItems qe ks)).filter
        (fun s => decide (simValue s.similarity = v)) =
      (scoredItems qe ks).filter (fun s => decide (simValue s.similarity = v))) ∧
    (ks.length ≤ 3 → List.Perm (findRelevantFiles qe ks) (scoredItems qe ks)) ∧
    (ks = [] → findRelevantFiles qe ks = []) := by
  have hkey : ∀ x y : ScoredItem, (∃ r, x.similarity = JSNum.num r) →
      (∃ r, y.similarity = JSNum.num r) →
      (scoredLt x y ↔ simValue y.similarity < simValue x.similarity) :=
    fun x y hx hy => scoredLt_iff x y hx hy
  refine ⟨?_, ?_, ?_, ?_⟩
  · exact List.Pairwise.sublist (List.take_sublist 3 _)
      (sortJS_pairwise scoredLt (fun s => simValue s.similarity)
        (fun s => ∃ r, s.similarity = JSNum.num r) hkey _ hnum)
  · intro v
    exact sortJS_filter scoredLt (fun s => simValue s.similarity)
      (fun s => ∃ r, s.similarity = JSNum.num r) hkey v _ hnum
  · intro hk
    unfold findRelevantFiles
    rw [List.take_of_length_le]
    · exact sortJS_perm scoredLt _
    · rw [(sortJS_perm scoredLt _).length_eq]
      simpa [scoredItems] using hk
  · intro h
    subst h
    rfl

/-- Helper for concrete witnesses: the cosine similarity of the
one-dimensional unit vector with itself evaluates to 1. -/
theorem cos_single_one : cosineSimilarity [(1 : ℝ)] [(1 : ℝ)] = JSNum.num 1 := by
  have h1 : sumSq [(1 : ℝ)] = 1 := by norm_num [sumSq]
  have hd : dotProduct [(1 : ℝ)] [(1 : ℝ)] = JSNum.num 1 := by
    simp [dotProduct, dotAux, jsAdd]
  unfold cosineSimilarity
  rw [hd, h1]
  unfold jsSqrt
  rw [if_neg (by norm_num : ¬ (1 : ℝ) < 0), Real.sqrt_one]
  simp [jsMul, jsDiv]

/-- A one-item corpus used in concrete instances. -/
noncomputable def buddhaItem : KnowledgeItem :=
  { fileName := "buddha.txt", content := "buddha text", embedding := [(1 : ℝ)] }

/-- C5 witness: the theorem applied to the single-file corpus with the
unit embedding, whose only similarity is the number 1. -/
theorem findRelevantFiles_sorted_stable_witness :
    (∀ s ∈ scoredItems [(1 : ℝ)] [buddhaItem], ∃ x, s.similarity = JSNum.num x) ∧
    ((findRelevantFiles [(1 : ℝ)] [buddhaItem]).Pairwise
      (fun a b => simValue b.similarity ≤ simValue a.similarity) ∧
    (∀ v : ℝ, (sortJS scoredLt (scoredItems [(1 : ℝ)] [buddhaItem])).filter
        (fun s => decide (simValue s.similarity = v)) =
      (scoredItems [(1 : ℝ)] [buddhaItem]).filter
        (fun s => decide (simValue s.similarity = v))) ∧
    (([buddhaItem] : List KnowledgeItem).length ≤ 3 →
      List.Perm (findRelevantFiles [(1 : ℝ)] [buddhaItem])
        (scoredItems [(1 : ℝ)] [buddhaItem])) ∧
    (([buddhaItem] : List KnowledgeItem) = [] →
      findRelevantFiles [(1 : ℝ)] [buddhaItem] = [])) := by
  have hnum : ∀ s ∈ scoredItems [(1 : ℝ)] [buddhaItem], ∃ x, s.similarity = JSNum.num x := by
    intro s hs
    simp only [scoredItems, List.map_cons, List.map_nil, List.mem_singleton] at hs
    subst hs
    exact ⟨1, cos_single_one⟩
  exact ⟨hnum, findRelevantFiles_sorted_stable _ _ hnum⟩

/-! ### Lemmas about the title generator -/

theorem collapseSpaces_true (s : List Char) :
    collapseSpaces true s = collapseSpaces false (s.dropWhile jsSpaceChar) := by
  induction s with
  | nil => rfl
  | cons c cs ih =>
    by_cases hc : jsSpaceChar c
    · rw [List.dropWhile_cons_of_pos hc]
      simpa [collapseSpaces, hc] using ih
    · rw [List.dropWhile_cons_of_neg (by simpa using hc)]
      simp [collapseSpaces, hc]

theorem wsWords_cons_ws {c : Char} (hc : jsSpaceChar c = true) (s : List Char) :
    wsWords (c :: s) = wsWords s := by
  simp [wsWords, wsWordsAux, hc]

theorem wsWords_dropWhile (s : List Char) :
    wsWords (s.dropWhile jsSpaceChar) = wsWords s := by
  induction s with
  | nil => rfl
  | cons c cs ih =>
    by_cases hc : jsSpaceChar c
    · rw [List.dropWhile_cons_of_pos hc, ih, wsWords_cons_ws hc]
    · rw [List.dropWhile_cons_of_neg (by simpa using hc)]

theorem collapseSpaces_word (w : List Char) (s : List Char)
    (hw : ∀ c ∈ w, jsSpaceChar c = false) :
    collapseSpaces false (w ++ s) = w ++ collapseSpaces false s := by
  induction w with
  | nil => rfl
  | cons c w ih =>
    have hc : jsSpaceChar c = false := hw c (List.mem_cons_self c w)
    have ih2 := ih (fun x hx => hw x (List.mem_cons_of_mem c hx))
    simp only [List.cons_append, collapseSpaces, hc]
    simp [ih2]

theorem wsWordsAux_word (w : List Char) : ∀ (cur r : List Char),
    (∀ c ∈ w, jsSpaceChar c = false) →
    wsWordsAux cur (w ++ r) = wsWordsAux (w.reverse ++ cur) r := by
  induction w with
  | nil => intro cur r _; rfl
  | cons c w ih =>
    intro cur r hw
    have hc : jsSpaceChar c = false := hw c (List.mem_cons_self c w)
    have ih2 := ih (c :: cur) r (fun x hx => hw x (List.mem_cons_of_mem c hx))
    simp only [List.cons_append, wsWordsAux, hc]
    simp [ih2]

theorem wsWordsAux_ne_nil (s : List Char) : ∀ cur : List Char, cur ≠ [] →
    wsWordsAux cur s ≠ [] := by
  induction s with
  | nil =>
    intro cur hcur
    simp [wsWordsAux, List.isEmpty_iff, hcur]
  | cons c cs ih =>
    intro cur hcur
    by_cases hc : jsSpaceChar c
    · simp [wsWordsAux, hc, List.isEmpty_iff, hcur]
    · simp only [wsWordsAux, hc]
      simpa using ih (c :: cur) (by simp)

theorem wsWords_nonnil_of_head {c : Char} (hc : jsSpaceChar c = false) (s : List Char) :
    wsWords (c :: s) ≠ [] := by
  simp only [wsWords, wsWordsAux, hc]
  simpa using wsWordsAux_ne_nil s [c] (by simp)

theorem wsWords_members (s : List Char) : ∀ (cur : List Char),
    (∀ c ∈ cur, jsSpaceChar c = false) →
    ∀ w ∈ wsWordsAux cur s, w ≠ [] ∧ ∀ c ∈ w, jsSpaceChar c = false := by
  induction s with
  | nil =>
    intro cur hcur w hw
    by_cases h : cur.isEmpty
    · simp [wsWordsAux, h] at hw
    · simp only [wsWordsAux, h] at hw
      simp only [Bool.false_eq_true, if_false, List.mem_singleton] at hw
      subst hw
      refine ⟨by simpa [List.isEmpty_iff] using h, ?_⟩
      intro c hc
      exact hcur c (List.mem_reverse.mp hc)
  | cons c cs ih =>
    intro cur hcur w hw
    by_cases hc : jsSpaceChar c
    · by_cases hemp : cur.isEmpty
      · simp only [wsWordsAux, hc, hemp, if_true] at hw
        exact ih [] (by simp) w hw
      · simp only [wsWordsAux, hc, hemp, if_true, Bool.false_eq_true, if_false,
          List.mem_cons] at hw
        rcases hw with heq | hw2
        · subst heq
          refine ⟨by simpa [List.isEmpty_iff] using hemp, ?_⟩
          intro x hx
          exact hcur x (List.mem_reverse.mp hx)
        · exact ih [] (by simp) w hw2
    · simp only [wsWordsAux, hc, Bool.false_eq_true, if_false] at hw
      refine ih (c :: cur) ?_ w hw
      intro x hx
      rcases List.mem_cons.mp hx with heq | hx2
      · rw [heq]; simpa using hc
      · exact hcur x hx2

theorem dropWhile_append_of_exists {p : Char → Bool} (A B : List Char)
    (h : ∃ c ∈ A, p c = false) :
    (A ++ B).dropWhile p = A.dropWhile p ++ B := by
  induction A with
  | nil => simp at h
  | cons a A ih =>
    by_cases ha : p a
    · have h2 : ∃ c ∈ A, p c = false := by
        rcases h with ⟨c, hc, hpc⟩
        rcases List.mem_cons.mp hc with heq | hc2
        · rw [heq] at hpc; rw [hpc] at ha; simp at ha
        · exact ⟨c, hc2, hpc⟩
      rw [List.cons_append, List.dropWhile_cons_of_pos ha,
        List.dropWhile_cons_of_pos ha]
      exact ih h2
    · rw [List.cons_append, List.dropWhile_cons_of_neg ha,
        List.dropWhile_cons_of_neg ha]
      rfl

theorem dropWhile_eq_self_of_all {p : Char → Bool} (A : List Char)
    (h : ∀ c ∈ A, p c = false) : A.dropWhile p = A := by
  cases A with
  | nil => rfl
  | cons a A =>
    rw [List.dropWhile_cons_of_neg]
    rw [h a (List.mem_cons_self a A)]
    simp

theorem trimChars_cons_space (s : List Char) : trimChars (' ' :: s) = trimChars s := by
  simp [trimChars, List.dropWhile_cons_of_pos (by decide : jsSpaceChar ' ' = true)]

theorem trimChars_of_nonws (w : List Char) (hw : ∀ c ∈ w, jsSpaceChar c = false) :
    trimChars w = w := by
  unfold trimChars
  rw [dropWhile_eq_self_of_all w hw,
    dropWhile_eq_self_of_all w.reverse (fun c hc => hw c (List.mem_reverse.mp hc)),
    List.reverse_reverse]

theorem trimChars_word_trailing_space (a : Char) (w : List Char)
    (hw : ∀ c ∈ a :: w, jsSpaceChar c = false) :
    trimChars ((a :: w) ++ [' ']) = a :: w := by
  unfold trimChars
  rw [List.cons_append,
    List.dropWhile_cons_of_neg (by simp [hw a (List.mem_cons_self a w)])]
  have hrev : (a :: (w ++ [' '])).reverse = ' ' :: (w.reverse ++ [a]) := by simp
  rw [hrev, List.dropWhile_cons_of_pos (by decide : jsSpaceChar ' ' = true)]
  have hall : ∀ c ∈ w.reverse ++ [a], jsSpaceChar c = false := by
    intro c hc
    rcases List.mem_append.mp hc with hc2 | hc2
    · exact hw c (List.mem_cons_of_mem a (List.mem_reverse.mp hc2))
    · simp only [List.mem_singleton] at hc2
      rw [hc2]
      exact hw a (List.mem_cons_self a w)
  rw [dropWhile_eq_self_of_all _ hall]
  simp

theorem trimChars_word_sep (a : Char) (w : List Char) (e : Char) (X : List Char)
    (hw : ∀ c ∈ a :: w, jsSpaceChar c = false) (he : jsSpaceChar e = false) :
    trimChars ((a :: w) ++ ' ' :: e :: X) = (a :: w) ++ ' ' :: trimChars (e :: X) := by
  unfold trimChars
  rw [List.cons_append,
    List.dropWhile_cons_of_neg (by simp [hw a (List.mem_cons_self a w)]),
    List.dropWhile_cons_of_neg (by simp [he])]
  have hrev : (a :: (w ++ ' ' :: e :: X)).reverse =
      (e :: X).reverse ++ (' ' :: (w.reverse ++ [a])) := by simp
  rw [hrev, dropWhile_append_of_exists _ _ ⟨e, by simp, he⟩]
  simp

theorem splitOnSpace_append_word (w : List Char) : ∀ (t : List Char)
    (u : List Char) (us : List (List Char)), (∀ c ∈ w, c ≠ ' ') →
    splitOnSpace t = u :: us → splitOnSpace (w ++ t) = (w ++ u) :: us := by
  induction w with
  | nil => intro t u us _ h; simpa using h
  | cons c w ih =>
    intro t u us hw h
    have hc : c ≠ ' ' := hw c (List.mem_cons_self c w)
    have ih2 := ih t u us (fun x hx => hw x (List.mem_cons_of_mem c hx)) h
    simp only [List.cons_append, splitOnSpace, List.append_eq]
    rw [if_neg hc, ih2]

theorem splitOnSpace_join (ws : List (List Char)) (hne : ws ≠ [])
    (hfree : ∀ w ∈ ws, ∀ c ∈ w, c ≠ ' ') :
    splitOnSpace (joinSpace ws) = ws := by
  induction ws with
  | nil => exact absurd rfl hne
  | cons w ws ih =>
    cases ws with
    | nil =>
      have h0 : splitOnSpace ([] : List Char) = [] :: [] := rfl
      have := splitOnSpace_append_word w [] [] []
        (hfree w (List.mem_cons_self w [])) h0
      simpa [joinSpace] using this
    | cons w2 ws2 =>
      have hfree2 : ∀ x ∈ w2 :: ws2, ∀ c ∈ x, c ≠ ' ' :=
        fun x hx => hfree x (List.mem_cons_of_mem w hx)
      have ih2 := ih (by simp) hfree2
      have hsep : splitOnSpace (' ' :: joinSpace (w2 :: ws2)) =
          [] :: (w2 :: ws2) := by
        simp [splitOnSpace, ih2]
      have := splitOnSpace_append_word w (' ' :: joinSpace (w2 :: ws2)) [] (w2 :: ws2)
        (hfree w (List.mem_cons_self w (w2 :: ws2))) hsep
      simpa [joinSpace] using this

theorem dropWhile_head_false {p : Char → Bool} :
    ∀ (l : List Char) (d : Char) (t : List Char), l.dropWhile p = d :: t → p d = false := by
  intro l
  induction l with
  | nil => intro d t h; simp at h
  | cons a l ih =>
    intro d t h
    by_cases ha : p a
    · rw [List.dropWhile_cons_of_pos ha] at h
      exact ih d t h
    · rw [List.dropWhile_cons_of_neg ha] at h
      have : a = d := (List.cons.injEq a l d t).mp h |>.1
      rw [← this]
      simpa using ha

theorem dropWhile_length_le (p : Char → Bool) (l : List Char) :
    (l.dropWhile p).length ≤ l.length := by
  induction l with
  | nil => simp
  | cons a l ih =>
    by_cases ha : p a
    · rw [List.dropWhile_cons_of_pos ha]
      exact le_trans ih (Nat.le_succ _)
    · rw [List.dropWhile_cons_of_neg ha]

theorem nonws_ne_space {x : Char} (h : jsSpaceChar x = false) : x ≠ ' ' := by
  intro hx
  rw [hx] at h
  simp [jsSpaceChar] at h

theorem split_cleaned (n : Nat) : ∀ s : List Char, s.length ≤ n →
    splitOnSpace (trimChars (collapseSpaces false s)) =
      if wsWords s = [] then [[]] else wsWords s := by
  induction n with
  | zero =>
    intro s hs
    have hnil : s = [] := List.eq_nil_of_length_eq_zero (Nat.le_zero.mp hs)
    subst hnil
    rfl
  | succ n ih =>
    intro s hs
    cases s with
    | nil => rfl
    | cons c s' =>
      have hs' : s'.length ≤ n := Nat.le_of_succ_le_succ hs
      by_cases hc : jsSpaceChar c
      · have hlen : (s'.dropWhile jsSpaceChar).length ≤ n :=
          le_trans (dropWhile_length_le jsSpaceChar s') hs'
        have h1 : collapseSpaces false (c :: s') =
            ' ' :: collapseSpaces false (s'.dropWhile jsSpaceChar) := by
          simp [collapseSpaces, hc, collapseSpaces_true]
        rw [h1, trimChars_cons_space, ih _ hlen, wsWords_dropWhile, wsWords_cons_ws hc]
      · have hcf : jsSpaceChar c = false := by simpa using hc
        set W := s'.takeWhile (fun x => !jsSpaceChar x) with hWdef
        set R := s'.dropWhile (fun x => !jsSpaceChar x) with hRdef
        have hsplit : c :: s' = (c :: W) ++ R := by
          rw [List.cons_append, hWdef, hRdef, List.takeWhile_append_dropWhile]
        have hw : ∀ x ∈ c :: W, jsSpaceChar x = false := by
          intro x hx
          rcases List.mem_cons.mp hx with heq | hx2
          · rw [heq]; exact hcf
          · have h3 := List.mem_takeWhile_imp (hWdef ▸ hx2)
            simpa using h3
        have hwfree : ∀ x ∈ c :: W, x ≠ ' ' := fun x hx => nonws_ne_space (hw x hx)
        have hcollapse : collapseSpaces false (c :: s') =
            (c :: W) ++ collapseSpaces false R := by
          rw [hsplit]
          exact collapseSpaces_word _ _ hw
        have hwords : wsWords (c :: s') = wsWordsAux ((c :: W).reverse) R := by
          rw [hsplit, wsWords, wsWordsAux_word _ _ _ hw, List.append_nil]
        have hsingle : ∀ u : List Char, splitOnSpace (u ++ []) = (u ++ []) :: [] →
            splitOnSpace u = [u] := by
          intro u hu
          simpa using hu
        cases hr : R with
        | nil =>
          rw [hr] at hcollapse hwords
          have hone : wsWordsAux ((c :: W).reverse) ([] : List Char) = [c :: W] := by
            simp [wsWordsAux]
          rw [hcollapse, hwords, hone]
          rw [show collapseSpaces false ([] : List Char) = [] from rfl, List.append_nil]
          rw [trimChars_of_nonws _ hw]
          have h4 := splitOnSpace_append_word (c :: W) [] [] [] hwfree rfl
          simp only [List.append_nil] at h4
          rw [h4]
          simp
        | cons d r2 =>
          have hd : jsSpaceChar d = true := by
            have h5 := dropWhile_head_false s' d r2 (hRdef ▸ hr)
            rcases Bool.eq_false_or_eq_true (jsSpaceChar d) with h6 | h6
            · exact h6
            · rw [h6] at h5
              simp at h5
          have hrlen : r2.length + 1 ≤ s'.length := by
            have h6 := dropWhile_length_le (fun x => !jsSpaceChar x) s' 
            rw [← hRdef, hr] at h6
            simpa using h6
          have hwords2 : wsWords (c :: s') = (c :: W) :: wsWords r2 := by
            have hne : ((c :: W).reverse).isEmpty = false := by simp
            rw [hwords, hr]
            simp [wsWordsAux, hd, hne, wsWords]
          have hcoll2 : collapseSpaces false (d :: r2) =
              ' ' :: collapseSpaces false (r2.dropWhile jsSpaceChar) := by
            simp [collapseSpaces, hd, collapseSpaces_true]
          have hw2 : wsWords r2 = wsWords (r2.dropWhile jsSpaceChar) :=
            (wsWords_dropWhile r2).symm
          cases hr2 : r2.dropWhile jsSpaceChar with
          | nil =>
            rw [hr2] at hcoll2
            rw [hcollapse, hr, hcoll2]
            have h7 : (c :: W) ++ [' '] = (c :: W) ++ ' ' :: collapseSpaces false [] := rfl
            rw [← h7, trimChars_word_trailing_space c W hw]
            have h4 := splitOnSpace_append_word (c :: W) [] [] [] hwfree rfl
            simp only [List.append_nil] at h4
            rw [h4, hwords2, hw2, hr2]
            simp [wsWords, wsWordsAux]
          | cons e t =>
            have he : jsSpaceChar e = false :=
              dropWhile_head_false r2 e t (by rw [hr2])
            have hXcons : collapseSpaces false (e :: t) = e :: collapseSpaces false t := by
              simp [collapseSpaces, he]
            have hlen3 : (e :: t).length ≤ n := by
              have h8 := dropWhile_length_le jsSpaceChar r2
              rw [hr2] at h8
              omega
            have ihr := ih (e :: t) hlen3
            have hnn : wsWords (e :: t) ≠ [] := wsWords_nonnil_of_head he t
            rw [if_neg hnn] at ihr
            rw [hcollapse, hr, hcoll2, hr2, hXcons]
            rw [show (c :: W) ++ ' ' :: e :: collapseSpaces false t =
              (c :: W) ++ ' ' :: e :: collapseSpaces false t from rfl]
            rw [trimChars_word_sep c W e (collapseSpaces false t) hw he]
            have htrim : trimChars (e :: collapseSpaces false t) =
                trimChars (collapseSpaces false (e :: t)) := by rw [hXcons]
            rw [htrim]
            have hsep : splitOnSpace (' ' :: trimChars (collapseSpaces false (e :: t))) =
                [] :: wsWords (e :: t) := by
              simp [splitOnSpace, ihr]
            have h9 := splitOnSpace_append_word (c :: W)
              (' ' :: trimChars (collapseSpaces false (e :: t))) [] (wsWords (e :: t))
              hwfree hsep
            simp only [List.append_nil] at h9
            rw [h9, hwords2, hw2, hr2]
            rw [if_neg (by simp)]

/-- The title produced by generateTitle, characterised through the
spec-side word list: it is the first six whitespace-separated words of the
cleaned content joined by single spaces, with three dots appended exactly
when there are more than six words. -/
theorem generateTitle_eq_wsWords (content : List Char) :
    generateTitle content =
      joinSpace ((wsWords (replaceNonWord content)).take 6) ++
        (if 6 < (wsWords (replaceNonWord content)).length then ['.', '.', '.'] else []) := by
  have h := split_cleaned (replaceNonWord content).length (replaceNonWord content) le_rfl
  unfold generateTitle
  dsimp only
  by_cases hw : wsWords (replaceNonWord content) = []
  · rw [if_pos hw] at h
    rw [h, hw]
    rfl
  · rw [if_neg hw] at h
    rw [h]

/-- C10: whenever a ChatSession is saved while new or still titled
New Chat and it contains a user-role message, the pre-save hook sets the
title to the first six whitespace-separated words of the first user
message content (after non-word characters are replaced by spaces), with
three dots appended exactly when that cleaned content has more than six
words; this holds regardless of the title the caller had set. -/
theorem preSaveTitleHook_first_six_words (isNew : Bool) (chat : ChatSession)
    (m : ChatMessage)
    (hcond : isNew = true ∨ chat.title = "New Chat".toList)
    (hfind : chat.messages.find? (fun x => x.role = "user") = some m) :
    (preSaveTitleHook isNew chat).title =
      joinSpace ((wsWords (replaceNonWord m.content)).take 6) ++
        (if 6 < (wsWords (replaceNonWord m.content)).length then ['.', '.', '.'] else []) := by
  have hc : (isNew || decide (chat.title = "New Chat".toList)) = true := by
    rcases hcond with h | h
    · rw [h]
      simp
    · rw [h]
      simp
  unfold preSaveTitleHook
  rw [if_pos hc, hfind]
  exact generateTitle_eq_wsWords m.content

/-- A chat message used in the concrete title-hook instance. -/
def sampleMsg : ChatMessage :=
  { role := "user", content := ("What is the meaning of life, my friend today?").toList }

/-- A chat session used in the concrete title-hook instance; note the
caller-set title, which the hook overwrites because the session is new. -/
def sampleChat : ChatSession :=
  { title := ("Custom title").toList, messages := [sampleMsg] }

/-- C10 witness: a new session whose first user message has nine words
once cleaned; the hook titles it with the first six words and dots. -/
theorem preSaveTitleHook_first_six_words_witness :
    (true = true ∨ sampleChat.title = "New Chat".toList) ∧
    sampleChat.messages.find? (fun x => x.role = "user") = some sampleMsg ∧
    (preSaveTitleHook true sampleChat).title =
      ("What is the meaning of life...").toList := by
  refine ⟨Or.inl rfl, by decide, ?_⟩
  rw [preSaveTitleHook_first_six_words true sampleChat sampleMsg (Or.inl rfl) (by decide)]
  decide
